import Mathlib

/-!
# scs-migrate: configuration payloads, classifier and transformer

A shallow embedding of `validateConfigServerParams` (main.go), of
`fixConfigServerParams`, `renameServiceInstance` and `migrateService`
(migrate.go) and of `commandLineURL` (main.go).

A payload is what `encoding/json` decodes into `map[string]interface{}`:
a tree of values, objects being Go maps.  A Go map is embedded as an
association list read through its first entry for a key (`Obj.get`);
`obj[k] = v` is `Obj.set` and `delete(obj, k)` is `Obj.del`.  A decoded
payload is a tree, so the in-place mutation of a nested map is embedded as
writing the mutated value back under its key.
-/

namespace ScsMigrate

/-- A decoded JSON value (`interface{}` after `json.Unmarshal`).  Numbers are
never inspected by the program and are carried as an integer scalar. -/
inductive JVal where
  | null : JVal
  | bool (b : Bool) : JVal
  | num (n : Int) : JVal
  | str (s : String) : JVal
  | arr (xs : List JVal) : JVal
  | obj (kvs : List (String × JVal)) : JVal

/-- A Go `map[string]interface{}`. -/
abbrev Obj := List (String × JVal)

/-- The Go expression `v, ok := m[k]`: `none` when `ok` is false. -/
def Obj.get (k : String) : Obj → Option JVal
  | [] => none
  | (k', v) :: rest => if k' = k then some v else Obj.get k rest

/-- The Go expression `_, ok := m[k]`. -/
def Obj.has (k : String) (m : Obj) : Bool := (Obj.get k m).isSome

/-- The Go statement `m[k] = v`. -/
def Obj.set (k : String) (v : JVal) : Obj → Obj
  | [] => [(k, v)]
  | (k', v') :: rest => if k' = k then (k', v) :: rest else (k', v') :: Obj.set k v rest

/-- The Go statement `delete(m, k)`. -/
def Obj.del (k : String) : Obj → Obj
  | [] => []
  | (k', v) :: rest => if k' = k then Obj.del k rest else (k', v) :: Obj.del k rest

/-- The keys of a map. -/
def Obj.keys (m : Obj) : List String := m.map Prod.fst

/-- The Go loop `for k, v := range src { dst[k] = v }`. -/
def copyInto (dst src : Obj) : Obj := src.foldl (fun acc kv => Obj.set kv.1 kv.2 acc) dst

/-- The result of `validateConfigServerParams`: its three named results. -/
structure Flags where
  usesGitRepos : Bool
  usesEncryptKey : Bool
  usesComposite : Bool
  deriving DecidableEq, Repr

/-- The body of the loop over `composites` in `validateConfigServerParams`
(main.go:296-302), `uses` being `usesComposite` before the iteration. -/
def compositeStep (uses : Bool) (entry : JVal) : Bool :=
  match entry with
  | .obj o =>
    let usesCompositeGit := Obj.has "git" o
    let usesCompositeVault := Obj.has "vault" o
    uses || usesCompositeGit || usesCompositeVault
  | _ => uses

/-- The function `validateConfigServerParams` of main.go:278-306. -/
def validateConfigServerParams (params : Obj) : Flags :=
  let usesGitRepos :=
    match Obj.get "git" params with
    | some (.obj gitm) => Obj.has "repos" gitm
    | _ => false
  let usesEncryptKey :=
    match Obj.get "encrypt" params with
    | some (.obj encryptm) => Obj.has "key" encryptm
    | _ => false
  let usesComposite :=
    match Obj.get "composite" params with
    | some (.arr composites) => composites.foldl compositeStep false
    | _ => false
  { usesGitRepos := usesGitRepos, usesEncryptKey := usesEncryptKey,
    usesComposite := usesComposite }

/-- The first block of `fixConfigServerParams` (migrate.go:102-109): `repos`
is deleted from the map held under `git`. -/
def fixGitRepos (params : Obj) : Obj :=
  match Obj.get "git" params with
  | some (.obj gitm) =>
    if Obj.has "repos" gitm then Obj.set "git" (.obj (Obj.del "repos" gitm)) params
    else params
  | _ => params

/-- The body of the loop over `composites` in `fixConfigServerParams`
(migrate.go:114-133) on one entry. -/
def fixEntry (entry : JVal) : JVal :=
  match entry with
  | .obj o =>
    let o1 :=
      match Obj.get "git" o with
      | some (.obj gitm) => Obj.del "git" (Obj.set "type" (.str "git") (copyInto o gitm))
      | _ => o
    let o2 :=
      match Obj.get "vault" o1 with
      | some (.obj vaultm) => Obj.del "vault" (Obj.set "type" (.str "vault") (copyInto o1 vaultm))
      | _ => o1
    .obj o2
  | e => e

/-- The second block of `fixConfigServerParams` (migrate.go:111-136). -/
def fixComposite (params : Obj) : Obj :=
  match Obj.get "composite" params with
  | some (.arr composites) => Obj.set "composite" (.arr (composites.map fixEntry)) params
  | _ => params

/-- The function `fixConfigServerParams` of migrate.go:101-137; the payload it
leaves behind is returned. -/
def fixConfigServerParams (params : Obj) : Obj := fixComposite (fixGitRepos params)

/-- The entries of the `composite` array of a payload: empty when the key is
absent or holds no array. -/
def compositeEntries (params : Obj) : List JVal :=
  match Obj.get "composite" params with
  | some (.arr composites) => composites
  | _ => []

/-- In an entry that is a map, the values under `git` and under `vault` are
maps when the keys are present. -/
def entryObjValued (entry : JVal) : Bool :=
  match entry with
  | .obj o =>
    (match Obj.get "git" o with
      | none => true
      | some (.obj _) => true
      | _ => false) &&
    (match Obj.get "vault" o with
      | none => true
      | some (.obj _) => true
      | _ => false)
  | _ => true

/-- In an entry that is a map, a map under `git` has no key `vault` and a map
under `vault` has no key `git`. -/
def entryNoCollision (entry : JVal) : Bool :=
  match entry with
  | .obj o =>
    (match Obj.get "git" o with
      | some (.obj gitm) => !Obj.has "vault" gitm
      | _ => true) &&
    (match Obj.get "vault" o with
      | some (.obj vaultm) => !Obj.has "git" vaultm
      | _ => true)
  | _ => true

/-- Whether a looked-up value is present and a map: the Go test
`v, ok := m[k]` followed by `vm, ok := v.(map[string]interface{})`. -/
def holdsObj : Option JVal → Bool
  | some (.obj _) => true
  | _ => false

/-- One of the two flattening blocks of the loop body of
`fixConfigServerParams` (migrate.go:115-123 for `git`, 124-132 for `vault`),
on the map `o` of the entry, `K` being the key the block reads. -/
def flattenStep (K : String) (o : Obj) : Obj :=
  match Obj.get K o with
  | some (.obj m) => Obj.del K (Obj.set "type" (.str K) (copyInto o m))
  | _ => o

mutual
/-- Every map of the value has pairwise distinct keys, as every Go map has. -/
def JVal.wf : JVal → Bool
  | .arr xs => wfList xs
  | .obj kvs => decide (Obj.keys kvs).Nodup && wfObj kvs
  | _ => true
/-- Every value of the list is well formed. -/
def wfList : List JVal → Bool
  | [] => true
  | x :: xs => x.wf && wfList xs
/-- Every value of the map is well formed. -/
def wfObj : List (String × JVal) → Bool
  | [] => true
  | (_, v) :: rest => v.wf && wfObj rest
end

/-- The flattening `flattenK` in the words of the spec, as a relation between
an entry `e` and a result `r`: when `e` is a map and `e[K]` is a map `m`, `r`
is a map that reads, at every key, as `e` overlaid with the pairs of `m` (`m`
wins on a key both have), with `type` set to `K` and key `K` deleted;
otherwise `r` is `e`. -/
def IsFlattenOf (K : String) (e r : JVal) : Prop :=
  match e with
  | .obj o =>
    match Obj.get K o with
    | some (.obj m) =>
      ∃ o', r = .obj o' ∧ ∀ k, Obj.get k o' =
        if k = K then none
        else if k = "type" then some (.str K)
        else match Obj.get k m with
          | some v => some v
          | none => Obj.get k o
    | _ => r = e
  | _ => r = e

/-- The payload `{"composite": [{"git": "https://example.com/config.git"}]}`:
the entry has key `git`, holding a string. -/
def payloadGitString : Obj :=
  [("composite", .arr [.obj [("git", .str "https://example.com/config.git")]])]

/-- The payload `{"composite": [{"vault": {"git": {"uri": "u"}}}]}`: the map
under `vault` has itself a key `git`. -/
def payloadVaultWithGit : Obj :=
  [("composite", .arr [.obj [("vault", .obj [("git", .obj [("uri", .str "u")])])]])]

/-- The payload of the fifth case of `TestFixConfigServerParams`:
`{"composite": [{"git": {"foo": "bar"}}, {"vault": {"baz": 42}}]}`. -/
def payloadTwoComposites : Obj :=
  [("composite", .arr [.obj [("git", .obj [("foo", .str "bar")])],
                       .obj [("vault", .obj [("baz", .num 42)])]])]

/-- The payload of the first case of `TestFixConfigServerParams`:
`{"type": "foo", "number": 36, "enabled": true}`. -/
def payloadCompatible : Obj :=
  [("type", .str "foo"), ("number", .num 36), ("enabled", .bool true)]

/-! ## The dashboard URL

`commandLineURL` calls `strings.Replace` of the Go standard library, embedded
here after its implementation: the replacements are counted with
`strings.Count`, the limit `n` is cut to that count, and the loop copies the
text up to each instance found by `strings.Index`.  A string is carried as its
list of characters. -/

/-- The Go call `strings.Index(s, old)`: the position of the first instance of
`old` in `s`, `none` for `-1`. -/
def stringsIndex (old : List Char) : List Char → Option Nat
  | [] => if old.isPrefixOf [] then some 0 else none
  | c :: cs =>
    if old.isPrefixOf (c :: cs) then some 0
    else (stringsIndex old cs).map (fun i => i + 1)

/-- The loop of `strings.Count` for a non-empty `old`; every round consumes at
least one character, so `fuel = len(s)` rounds are enough. -/
def countLoop (old : List Char) : Nat → List Char → Nat
  | 0, _ => 0
  | fuel + 1, s =>
    match stringsIndex old s with
    | none => 0
    | some i => 1 + countLoop old fuel (s.drop (i + old.length))

/-- The Go call `strings.Count(s, old)`: the number of non-overlapping
instances of `old` in `s`, and the number of characters plus one for an empty
`old`. -/
def stringsCount (s old : List Char) : Nat :=
  if old = [] then s.length + 1 else countLoop old s.length s

/-- The loop of `strings.Replace`: `n` rounds remain, `i` rounds are done and
`s` is the text from `start` on. -/
def replaceLoop (old new : List Char) : Nat → Nat → List Char → List Char
  | 0, _, s => s
  | n + 1, i, s =>
    let j :=
      if old = [] then some (if 0 < i then min 1 s.length else 0)
      else stringsIndex old s
    match j with
    | some j => s.take j ++ new ++ replaceLoop old new n (i + 1) (s.drop (j + old.length))
    | none => s

/-- The Go call `strings.Replace(s, old, new, n)`. -/
def stringsReplace (s old new : List Char) (n : Int) : List Char :=
  if old = new ∨ n = 0 then s
  else
    let m := stringsCount s old
    if m = 0 then s
    else
      let n := if n < 0 ∨ (m : Int) < n then m else n.toNat
      replaceLoop old new n 0 s

/-- The constant `ConfigServer2Label` of main.go:22. -/
def ConfigServer2Label : String := "p-config-server"

/-- The function `commandLineURL` of main.go:111-115. -/
def commandLineURL (dashboardURL : String) : String :=
  String.mk (stringsReplace
    (stringsReplace dashboardURL.data "dashboard".data "cli".data (-1))
    ConfigServer2Label.data "instances".data (-1)) ++ "/parameters"

/-- The rewriting in the words of the spec: the first occurrence of
`dashboard` replaced by `cli`, then the first occurrence of the config-server
label replaced by `instances`, then the suffix `/parameters`. -/
def firstOccurrenceURL (dashboardURL : String) : String :=
  String.mk (stringsReplace
    (stringsReplace dashboardURL.data "dashboard".data "cli".data 1)
    ConfigServer2Label.data "instances".data 1) ++ "/parameters"

/-- The URL of `TestBrokerURL`. -/
def testDashboardURL : String :=
  "https://spring-cloud-broker.apps.pivotal.io/dashboard/p-config-server/GUID"

/-- A dashboard URL whose host name contains `dashboard` as well. -/
def twiceDashboardURL : String :=
  "https://dashboard.example.com/dashboard/p-config-server/GUID"

/-! ## The migration

The platform client (`c.client`) is the gateway.  Its answer to a call may
depend on every call issued before, so each of its methods takes the history
of the calls; a function of the program returns the history it leaves
together with its result.  `time.Sleep` and the printing of the restage
response do not reach the gateway and are left out. -/

/-- The fields of `cfclient.ServiceBinding` the program reads. -/
structure ServiceBinding where
  guid : String
  appGuid : String

/-- The fields of `cfclient.ServiceInstance` the program reads;
`lastOperationState` is `LastOperation.State`. -/
structure ServiceInstance where
  guid : String
  name : String
  lastOperationState : String

/-- The fields of `cfclient.ServiceSummary` the program reads;
`servicePlanGuid` is `ServicePlan.Guid`. -/
structure ServiceSummary where
  guid : String
  name : String
  servicePlanGuid : String

/-- The request `cfclient.ServiceInstanceRequest` as `migrateService` fills it. -/
structure ServiceInstanceRequest where
  name : String
  servicePlanGuid : String
  spaceGuid : String
  parameters : Obj

/-- A call on the gateway, with its arguments. -/
inductive Call where
  | updateServiceInstance (guid : String) (body : String) (async : Bool) : Call
  | getServiceInstanceByGuid (guid : String) : Call
  | createServiceInstance (req : ServiceInstanceRequest) : Call
  | createServiceBinding (appGuid : String) (serviceInstanceGuid : String) : Call
  | deleteServiceBinding (guid : String) : Call
  | restageApp (guid : String) : Call
  | deleteServiceInstance (guid : String) (recursive : Bool) (async : Bool) : Call

/-- A behaviour of the gateway: the answer to each call after a history of
calls.  A `Bool` answer is `err == nil`; an `Option` answer is `none` when
`err != nil`. -/
structure Gateway where
  updateServiceInstance : List Call → String → String → Bool → Bool
  getServiceInstanceByGuid : List Call → String → Option ServiceInstance
  createServiceInstance : List Call → ServiceInstanceRequest → Option ServiceInstance
  createServiceBinding : List Call → String → String → Bool
  deleteServiceBinding : List Call → String → Bool
  restageApp : List Call → String → Bool
  deleteServiceInstance : List Call → String → Bool → Bool → Bool

/-- The errors `renameServiceInstance` returns. -/
inductive RenameError where
  | updateFailed : RenameError
  | operationFailed : RenameError
  | notCompleted : RenameError
  deriving DecidableEq, Repr

/-- The errors `migrateService` returns, each with what its message names. -/
inductive MigrateError where
  | rename (cause : RenameError) : MigrateError
  | create : MigrateError
  | bind (appGuid : String) : MigrateError
  | unbind (bindingGuid : String) : MigrateError
  | restage (appGuid : String) : MigrateError
  | deleteOld : MigrateError
  deriving DecidableEq, Repr

/-- The `switch si.LastOperation.State` of migrate.go:85-91: `some e` when the
switch returns the error `e` from the function, `none` when control leaves the
switch.  The `break` of the case `succeeded` leaves the switch. -/
def renameSwitch (state : String) : Option RenameError :=
  if state = "succeeded" then none
  else if state = "failed" then some .operationFailed
  else none

/-- The loop `for tries := 0; tries < 3; tries++` of migrate.go:81-97, from
the value `tries` on; `fuel` bounds the rounds and 3 is enough from 0. -/
def renameWait (gw : Gateway) (guid : String) : Nat → Nat → List Call →
    List Call × Option RenameError
  | 0, _, hist => (hist, none)
  | fuel + 1, tries, hist =>
    if tries < 3 then
      let si := gw.getServiceInstanceByGuid hist guid
      let hist1 := hist ++ [Call.getServiceInstanceByGuid guid]
      let returned :=
        match si with
        | some si => renameSwitch si.lastOperationState
        | none => none
      match returned with
      | some e => (hist1, some e)
      | none =>
        if tries = 2 then (hist1, some .notCompleted)
        else renameWait gw guid fuel (tries + 1) hist1
    else (hist, none)

/-- The function `renameServiceInstance` of migrate.go:69-99. -/
def renameServiceInstance (gw : Gateway) (hist : List Call) (guid name : String)
    (wait : Bool) : List Call × Option RenameError :=
  let newConfig := "\x7b \"name\": \"" ++ name ++ "\"\x7d"
  let hist1 := hist ++ [Call.updateServiceInstance guid newConfig true]
  if gw.updateServiceInstance hist guid newConfig true = false then
    (hist1, some .updateFailed)
  else if wait = false then (hist1, none)
  else renameWait gw guid 3 0 hist1

/-- The loop over `bindings` of `migrateService` (migrate.go:32-50). -/
def rebindLoop (gw : Gateway) (newInstance : ServiceInstance) :
    List ServiceBinding → List Call → List Call × Option MigrateError
  | [], hist => (hist, none)
  | binding :: rest, hist =>
    let hist1 := hist ++ [Call.createServiceBinding binding.appGuid newInstance.guid]
    if gw.createServiceBinding hist binding.appGuid newInstance.guid = false then
      (hist1, some (.bind binding.appGuid))
    else
      let hist2 := hist1 ++ [Call.deleteServiceBinding binding.guid]
      if gw.deleteServiceBinding hist1 binding.guid = false then
        (hist2, some (.unbind binding.guid))
      else
        let hist3 := hist2 ++ [Call.restageApp binding.appGuid]
        if gw.restageApp hist2 binding.appGuid = false then
          (hist3, some (.restage binding.appGuid))
        else rebindLoop gw newInstance rest hist3

/-- The function `migrateService` of migrate.go:13-65. -/
def migrateService (gw : Gateway) (hist : List Call) (service : ServiceSummary)
    (spaceGUID : String) (params : Obj) (bindings : List ServiceBinding) :
    List Call × Except MigrateError ServiceInstance :=
  match renameServiceInstance gw hist service.guid (service.name ++ "-old") true with
  | (hist1, some e) => (hist1, .error (.rename e))
  | (hist1, none) =>
    let req : ServiceInstanceRequest :=
      { name := service.name, servicePlanGuid := service.servicePlanGuid,
        spaceGuid := spaceGUID, parameters := params }
    let hist2 := hist1 ++ [Call.createServiceInstance req]
    match gw.createServiceInstance hist1 req with
    | none => (hist2, .error .create)
    | some newInstance =>
      match rebindLoop gw newInstance bindings hist2 with
      | (hist3, some e) => (hist3, .error e)
      | (hist3, none) =>
        let deleteOldServiceInstances := false
        if deleteOldServiceInstances then
          let recursive := false
          let hist4 := hist3 ++ [Call.deleteServiceInstance service.guid recursive true]
          if gw.deleteServiceInstance hist3 service.guid recursive true = false then
            (hist4, .error .deleteOld)
          else (hist4, .ok newInstance)
        else (hist3, .ok newInstance)

/-- Whether the gateway answers a call without error after history `hist`. -/
def Gateway.accepts (gw : Gateway) (hist : List Call) : Call → Bool
  | .updateServiceInstance guid body async => gw.updateServiceInstance hist guid body async
  | .getServiceInstanceByGuid guid => (gw.getServiceInstanceByGuid hist guid).isSome
  | .createServiceInstance req => (gw.createServiceInstance hist req).isSome
  | .createServiceBinding appGuid instGuid => gw.createServiceBinding hist appGuid instGuid
  | .deleteServiceBinding guid => gw.deleteServiceBinding hist guid
  | .restageApp guid => gw.restageApp hist guid
  | .deleteServiceInstance guid recursive async =>
    gw.deleteServiceInstance hist guid recursive async

/-- Whether the gateway accepts every call of `calls`, issued in order after
history `hist`. -/
def allAccepted (gw : Gateway) : List Call → List Call → Bool
  | _, [] => true
  | hist, c :: cs => gw.accepts hist c && allAccepted gw (hist ++ [c]) cs

/-- The `j`-th gateway call for a binding: create the new binding, delete the
old binding, restage the application. -/
def bindingCall (newInstance : ServiceInstance) (b : ServiceBinding) : Nat → Call
  | 0 => Call.createServiceBinding b.appGuid newInstance.guid
  | 1 => Call.deleteServiceBinding b.guid
  | _ => Call.restageApp b.appGuid

/-- The three gateway calls for a binding, in order. -/
def bindingCalls (newInstance : ServiceInstance) (b : ServiceBinding) : List Call :=
  [bindingCall newInstance b 0, bindingCall newInstance b 1, bindingCall newInstance b 2]

/-- The gateway calls for a list of bindings: those of each binding, in the
order of the list. -/
def planCalls (newInstance : ServiceInstance) : List ServiceBinding → List Call
  | [] => []
  | b :: rest => bindingCalls newInstance b ++ planCalls newInstance rest

/-- The error `migrateService` returns when the `j`-th call for a binding
fails. -/
def bindingError (b : ServiceBinding) : Nat → MigrateError
  | 0 => .bind b.appGuid
  | 1 => .unbind b.guid
  | _ => .restage b.appGuid

/-- The gateway that accepts every call and reports the last operation
`succeeded` at every poll. -/
def gatewaySucceeded : Gateway where
  updateServiceInstance := fun _ _ _ _ => true
  getServiceInstanceByGuid := fun _ guid =>
    some { guid := guid, name := "config-old", lastOperationState := "succeeded" }
  createServiceInstance := fun _ req =>
    some { guid := "new-guid", name := req.name, lastOperationState := "in progress" }
  createServiceBinding := fun _ _ _ => true
  deleteServiceBinding := fun _ _ => true
  restageApp := fun _ _ => true
  deleteServiceInstance := fun _ _ _ _ => true

/-- The gateway that accepts every call but the deletion of the binding
`b2`. -/
def gatewayDeleteFails : Gateway where
  updateServiceInstance := fun _ _ _ _ => true
  getServiceInstanceByGuid := fun _ guid =>
    some { guid := guid, name := "config-old", lastOperationState := "succeeded" }
  createServiceInstance := fun _ req =>
    some { guid := "new-guid", name := req.name, lastOperationState := "in progress" }
  createServiceBinding := fun _ _ _ => true
  deleteServiceBinding := fun _ guid => decide (guid ≠ "b2")
  restageApp := fun _ _ => true
  deleteServiceInstance := fun _ _ _ _ => true

/-- A service summary. -/
def exampleService : ServiceSummary :=
  { guid := "old-guid", name := "config", servicePlanGuid := "plan-guid" }

/-- A new service instance. -/
def exampleInstance : ServiceInstance :=
  { guid := "new-guid", name := "config", lastOperationState := "in progress" }

/-- Three bindings. -/
def exampleBindings : List ServiceBinding :=
  [{ guid := "b1", appGuid := "app1" }, { guid := "b2", appGuid := "app2" },
   { guid := "b3", appGuid := "app3" }]

/-! ## Lemmas on maps -/

theorem Obj.get_set (k k' : String) (v : JVal) (m : Obj) :
    Obj.get k (Obj.set k' v m) = if k' = k then some v else Obj.get k m := by
  induction m with
  | nil => simp [Obj.set, Obj.get]
  | cons kv rest ih =>
    obtain ⟨a, b⟩ := kv
    by_cases h : a = k'
    · subst h
      by_cases h2 : a = k <;> simp [Obj.set, Obj.get, h2]
    · by_cases h2 : a = k
      · subst h2
        have h3 : ¬ k' = a := fun e => h e.symm
        simp [Obj.set, Obj.get, h, h3]
      · simp [Obj.set, Obj.get, h, h2, ih]

theorem Obj.get_set_ne (k k' : String) (v : JVal) (m : Obj) (h : k' ≠ k) :
    Obj.get k (Obj.set k' v m) = Obj.get k m := by
  rw [Obj.get_set, if_neg h]

theorem Obj.get_set_self (k : String) (v : JVal) (m : Obj) :
    Obj.get k (Obj.set k v m) = some v := by
  rw [Obj.get_set, if_pos rfl]

theorem Obj.get_del (k k' : String) (m : Obj) :
    Obj.get k (Obj.del k' m) = if k' = k then none else Obj.get k m := by
  induction m with
  | nil => simp [Obj.del, Obj.get]
  | cons kv rest ih =>
    obtain ⟨a, b⟩ := kv
    by_cases h : a = k'
    · subst h
      by_cases h2 : a = k
      · subst h2
        simpa [Obj.del, Obj.get] using ih
      · simp [Obj.del, Obj.get, h2, ih]
    · by_cases h2 : a = k
      · subst h2
        have h3 : ¬ k' = a := fun e => h e.symm
        simp [Obj.del, Obj.get, h, h3]
      · simp [Obj.del, Obj.get, h, h2, ih]

theorem Obj.set_eq_self (k : String) (v : JVal) (m : Obj) (h : Obj.get k m = some v) :
    Obj.set k v m = m := by
  induction m with
  | nil => simp [Obj.get] at h
  | cons kv rest ih =>
    obtain ⟨a, b⟩ := kv
    by_cases h1 : a = k
    · subst h1
      simp [Obj.get] at h
      simp [Obj.set, h]
    · simp [Obj.get, h1] at h
      simp [Obj.set, h1, ih h]

theorem Obj.keys_set_of_get (k : String) (v w : JVal) (m : Obj) (h : Obj.get k m = some w) :
    Obj.keys (Obj.set k v m) = Obj.keys m := by
  induction m with
  | nil => simp [Obj.get] at h
  | cons kv rest ih =>
    obtain ⟨a, b⟩ := kv
    by_cases h1 : a = k
    · subst h1
      simp [Obj.set, Obj.keys]
    · simp [Obj.get, h1] at h
      have := ih h
      simp [Obj.keys] at this
      simp [Obj.set, h1, Obj.keys, this]

theorem Obj.del_eq_self (k : String) (m : Obj) (h : Obj.has k m = false) :
    Obj.del k m = m := by
  induction m with
  | nil => simp [Obj.del]
  | cons kv rest ih =>
    obtain ⟨a, b⟩ := kv
    by_cases h1 : a = k
    · subst h1
      simp [Obj.has, Obj.get] at h
    · simp [Obj.has, Obj.get, h1] at h
      have h2 : Obj.has k rest = false := by simp [Obj.has, h]
      simp [Obj.del, h1, ih h2]

theorem Obj.has_copyInto (k : String) (src dst : Obj) :
    Obj.has k (copyInto dst src) = (Obj.has k dst || Obj.has k src) := by
  induction src generalizing dst with
  | nil => simp [copyInto, Obj.has, Obj.get]
  | cons kv rest ih =>
    obtain ⟨a, b⟩ := kv
    have ih' := ih (Obj.set a b dst)
    simp only [copyInto, List.foldl_cons] at ih' ⊢
    rw [ih']
    by_cases h : a = k
    · subst h
      simp [Obj.has, Obj.get, Obj.get_set]
    · simp [Obj.has, Obj.get, Obj.get_set, h]

theorem Obj.get_copyInto_of_not_has (k : String) (src dst : Obj) (h : Obj.has k src = false) :
    Obj.get k (copyInto dst src) = Obj.get k dst := by
  induction src generalizing dst with
  | nil => simp [copyInto]
  | cons kv rest ih =>
    obtain ⟨a, b⟩ := kv
    by_cases h1 : a = k
    · subst h1
      simp [Obj.has, Obj.get] at h
    · simp [Obj.has, Obj.get, h1] at h
      have h2 : Obj.has k rest = false := by simp [Obj.has, h]
      have ih' := ih (Obj.set a b dst) h2
      simp only [copyInto, List.foldl_cons] at ih' ⊢
      rw [ih', Obj.get_set_ne _ _ _ _ h1]

theorem Obj.get_eq_none_of_not_mem_keys (k : String) (m : Obj) (h : k ∉ Obj.keys m) :
    Obj.get k m = none := by
  induction m with
  | nil => rfl
  | cons kv rest ih =>
    obtain ⟨a, b⟩ := kv
    simp only [Obj.keys, List.map_cons, List.mem_cons, not_or] at h
    have h1 : ¬ a = k := fun e => h.1 e.symm
    have h2 : k ∉ Obj.keys rest := by simpa [Obj.keys] using h.2
    simp [Obj.get, h1, ih h2]

/-- The copy loop on a source with distinct keys: the source wins. -/
theorem Obj.get_copyInto (k : String) (src dst : Obj) (h : (Obj.keys src).Nodup) :
    Obj.get k (copyInto dst src) =
      match Obj.get k src with
      | some v => some v
      | none => Obj.get k dst := by
  induction src generalizing dst with
  | nil => simp [copyInto, Obj.get]
  | cons kv rest ih =>
    obtain ⟨a, b⟩ := kv
    simp only [Obj.keys, List.map_cons, List.nodup_cons] at h
    have hrest : (Obj.keys rest).Nodup := h.2
    have ih' := ih (Obj.set a b dst) hrest
    simp only [copyInto, List.foldl_cons] at ih' ⊢
    rw [ih']
    by_cases h1 : a = k
    · subst h1
      have hnone : Obj.get a rest = none :=
        Obj.get_eq_none_of_not_mem_keys a rest (by simpa [Obj.keys] using h.1)
      simp [Obj.get, hnone, Obj.get_set_self]
    · simp [Obj.get, h1, Obj.get_set_ne _ _ _ _ h1]

theorem wfObj_get (o : Obj) (h : wfObj o = true) (k : String) (v : JVal)
    (hk : Obj.get k o = some v) : v.wf = true := by
  induction o with
  | nil => simp [Obj.get] at hk
  | cons kv rest ih =>
    obtain ⟨a, b⟩ := kv
    simp only [wfObj, Bool.and_eq_true] at h
    by_cases h1 : a = k
    · simp only [Obj.get, h1, if_true, Option.some.injEq] at hk
      rw [← hk]
      exact h.1
    · simp only [Obj.get, h1, if_false] at hk
      exact ih h.2 hk

theorem wfList_mem (xs : List JVal) (h : wfList xs = true) (x : JVal) (hx : x ∈ xs) :
    x.wf = true := by
  induction xs with
  | nil => simp at hx
  | cons y rest ih =>
    simp only [wfList, Bool.and_eq_true] at h
    rcases List.mem_cons.mp hx with rfl | hmem
    · exact h.1
    · exact ih h.2 hmem

theorem wf_obj (o : Obj) (h : JVal.wf (.obj o) = true) :
    (Obj.keys o).Nodup ∧ wfObj o = true := by
  simpa [JVal.wf] using h

/-! ## Lemmas on the transformer -/

theorem get_fixGitRepos_ne (k : String) (p : Obj) (h : "git" ≠ k) :
    Obj.get k (fixGitRepos p) = Obj.get k p := by
  unfold fixGitRepos
  split
  · split
    · exact Obj.get_set_ne _ _ _ _ h
    · rfl
  · rfl

theorem get_git_fixGitRepos (p : Obj) :
    Obj.get "git" (fixGitRepos p) =
      match Obj.get "git" p with
      | some (.obj gitm) => some (.obj (Obj.del "repos" gitm))
      | x => x := by
  unfold fixGitRepos
  split
  · rename_i gitm hg
    by_cases hr : Obj.has "repos" gitm = true
    · simp [hr, Obj.get_set_self]
    · have hr' : Obj.has "repos" gitm = false := by simpa using hr
      simp [hr', hg, Obj.del_eq_self _ _ hr']
  · rfl

theorem get_fixComposite_ne (k : String) (p : Obj) (h : "composite" ≠ k) :
    Obj.get k (fixComposite p) = Obj.get k p := by
  unfold fixComposite
  split
  · exact Obj.get_set_ne _ _ _ _ h
  · rfl

theorem get_composite_fixComposite (p : Obj) :
    Obj.get "composite" (fixComposite p) =
      match Obj.get "composite" p with
      | some (.arr composites) => some (.arr (composites.map fixEntry))
      | x => x := by
  unfold fixComposite
  split
  · simp [Obj.get_set_self]
  · rfl

theorem get_composite_fix (p : Obj) :
    Obj.get "composite" (fixConfigServerParams p) =
      match Obj.get "composite" p with
      | some (.arr composites) => some (.arr (composites.map fixEntry))
      | x => x := by
  unfold fixConfigServerParams
  rw [get_composite_fixComposite, get_fixGitRepos_ne _ _ (by decide)]

theorem get_git_fix (p : Obj) :
    Obj.get "git" (fixConfigServerParams p) =
      match Obj.get "git" p with
      | some (.obj gitm) => some (.obj (Obj.del "repos" gitm))
      | x => x := by
  unfold fixConfigServerParams
  rw [get_fixComposite_ne _ _ (by decide), get_git_fixGitRepos]

theorem foldl_compositeStep (es : List JVal) (b : Bool) :
    es.foldl compositeStep b = (b || es.any (compositeStep false)) := by
  induction es generalizing b with
  | nil => simp
  | cons e rest ih =>
    rw [List.foldl_cons, ih, List.any_cons]
    cases e <;> simp [compositeStep, Bool.or_assoc]

theorem fixEntry_obj (o : Obj) :
    fixEntry (.obj o) = .obj (flattenStep "vault" (flattenStep "git" o)) := rfl

theorem holdsObj_eq_false (x : Option JVal) :
    holdsObj x = false ↔ ∀ m, x ≠ some (.obj m) := by
  cases x with
  | none => simp [holdsObj]
  | some v => cases v <;> simp [holdsObj]

theorem flattenStep_noop (K : String) (o : Obj) (h : holdsObj (Obj.get K o) = false) :
    flattenStep K o = o := by
  unfold flattenStep
  split
  · rename_i m hm
    rw [hm] at h
    simp [holdsObj] at h
  · rfl

theorem get_flattenStep_self (K : String) (o : Obj) :
    holdsObj (Obj.get K (flattenStep K o)) = false := by
  unfold flattenStep
  split
  · simp [Obj.get_del, holdsObj]
  · rename_i hno
    rw [holdsObj_eq_false]
    intro m hm
    exact hno m hm

theorem has_flattenStep_self (K : String) (o : Obj) (h : holdsObj (Obj.get K o) = true) :
    Obj.has K (flattenStep K o) = false := by
  unfold flattenStep
  split
  · simp [Obj.has, Obj.get_del]
  · rename_i hno
    cases hg : Obj.get K o with
    | none => simp [hg, holdsObj] at h
    | some v =>
      cases v with
      | obj m => exact absurd hg (hno m)
      | _ => simp [hg, holdsObj] at h

theorem get_flattenStep_other (K k : String) (o : Obj) (hne : K ≠ k) (hty : "type" ≠ k)
    (h : ∀ m, Obj.get K o = some (.obj m) → Obj.has k m = false) :
    Obj.get k (flattenStep K o) = Obj.get k o := by
  unfold flattenStep
  split
  · rename_i m hm
    rw [Obj.get_del, if_neg hne, Obj.get_set_ne _ _ _ _ hty,
      Obj.get_copyInto_of_not_has _ _ _ (h m hm)]
  · rfl

theorem entryNoCollision_obj (o : Obj) (h : entryNoCollision (.obj o) = true) :
    (∀ m, Obj.get "git" o = some (.obj m) → Obj.has "vault" m = false) ∧
    (∀ m, Obj.get "vault" o = some (.obj m) → Obj.has "git" m = false) := by
  simp only [entryNoCollision, Bool.and_eq_true] at h
  obtain ⟨h1, h2⟩ := h
  constructor
  · intro m hm
    rw [hm] at h1
    simpa using h1
  · intro m hm
    rw [hm] at h2
    simpa using h2

theorem entryObjValued_obj (o : Obj) (h : entryObjValued (.obj o) = true) :
    (Obj.has "git" o = true → holdsObj (Obj.get "git" o) = true) ∧
    (Obj.has "vault" o = true → holdsObj (Obj.get "vault" o) = true) := by
  simp only [entryObjValued, Bool.and_eq_true] at h
  obtain ⟨h1, h2⟩ := h
  constructor
  · intro hh
    cases hg : Obj.get "git" o with
    | none => simp [Obj.has, hg] at hh
    | some v => cases v <;> simp [hg, holdsObj] at h1 ⊢
  · intro hh
    cases hg : Obj.get "vault" o with
    | none => simp [Obj.has, hg] at hh
    | some v => cases v <;> simp [hg, holdsObj] at h2 ⊢

/-- After the loop body, an entry free of collisions holds no map under `git`
and none under `vault`. -/
theorem fixEntry_holdsObj (o : Obj) (h : entryNoCollision (.obj o) = true) :
    holdsObj (Obj.get "git" (flattenStep "vault" (flattenStep "git" o))) = false ∧
    holdsObj (Obj.get "vault" (flattenStep "vault" (flattenStep "git" o))) = false := by
  obtain ⟨hg, hv⟩ := entryNoCollision_obj o h
  have hvault : Obj.get "vault" (flattenStep "git" o) = Obj.get "vault" o :=
    get_flattenStep_other "git" "vault" o (by decide) (by decide) hg
  refine ⟨?_, get_flattenStep_self _ _⟩
  rw [get_flattenStep_other "vault" "git" _ (by decide) (by decide)]
  · exact get_flattenStep_self _ _
  · intro m hm
    rw [hvault] at hm
    exact hv m hm

/-- After the loop body, an entry free of collisions whose `git` and `vault`
values are maps has neither key. -/
theorem fixEntry_has (o : Obj) (h : entryNoCollision (.obj o) = true)
    (hobj : entryObjValued (.obj o) = true) :
    Obj.has "git" (flattenStep "vault" (flattenStep "git" o)) = false ∧
    Obj.has "vault" (flattenStep "vault" (flattenStep "git" o)) = false := by
  obtain ⟨hg, hv⟩ := entryNoCollision_obj o h
  obtain ⟨hog, hov⟩ := entryObjValued_obj o hobj
  have hvault : Obj.get "vault" (flattenStep "git" o) = Obj.get "vault" o :=
    get_flattenStep_other "git" "vault" o (by decide) (by decide) hg
  have hgit1 : Obj.has "git" (flattenStep "git" o) = false := by
    by_cases hh : Obj.has "git" o = true
    · exact has_flattenStep_self _ _ (hog hh)
    · have hh' : Obj.has "git" o = false := by simpa using hh
      rw [flattenStep_noop]
      · exact hh'
      · have hnone : Obj.get "git" o = none := by
          simpa [Obj.has] using hh'
        simp [hnone, holdsObj]
  constructor
  · have : Obj.get "git" (flattenStep "vault" (flattenStep "git" o))
        = Obj.get "git" (flattenStep "git" o) := by
      apply get_flattenStep_other "vault" "git" _ (by decide) (by decide)
      intro m hm
      rw [hvault] at hm
      exact hv m hm
    simp only [Obj.has] at hgit1 ⊢
    rw [this]
    exact hgit1
  · by_cases hh : Obj.has "vault" o = true
    · apply has_flattenStep_self
      rw [hvault]
      exact hov hh
    · have hh' : Obj.has "vault" o = false := by simpa using hh
      have hnone : Obj.get "vault" o = none := by
        simpa [Obj.has] using hh'
      rw [flattenStep_noop]
      · simp [Obj.has, hvault, hnone]
      · simp [hvault, hnone, holdsObj]

theorem fixEntry_idem (e : JVal) (h : entryNoCollision e = true) :
    fixEntry (fixEntry e) = fixEntry e := by
  cases e with
  | obj o =>
    obtain ⟨h1, h2⟩ := fixEntry_holdsObj o h
    rw [fixEntry_obj, fixEntry_obj, flattenStep_noop "git" _ h1, flattenStep_noop "vault" _ h2]
  | _ => rfl

theorem fixEntry_noop (e : JVal) (h : compositeStep false e = false) : fixEntry e = e := by
  cases e with
  | obj o =>
    simp only [compositeStep, Bool.false_or, Bool.or_eq_false_iff, Obj.has] at h
    have hg : Obj.get "git" o = none := by simpa using h.1
    have hv : Obj.get "vault" o = none := by simpa using h.2
    rw [fixEntry_obj, flattenStep_noop "git" o (by simp [hg, holdsObj]),
      flattenStep_noop "vault" o (by simp [hv, holdsObj])]
  | _ => rfl

theorem fixGitRepos_noop (q : Obj)
    (h : ∀ m, Obj.get "git" q = some (.obj m) → Obj.has "repos" m = false) :
    fixGitRepos q = q := by
  unfold fixGitRepos
  split
  · rename_i m hm
    simp [h m hm]
  · rfl

theorem fixComposite_noop (q : Obj) (h : ∀ e ∈ compositeEntries q, fixEntry e = e) :
    fixComposite q = q := by
  unfold fixComposite
  split
  · rename_i es hes
    have hmap : es.map fixEntry = es := by
      have : ∀ e ∈ es, fixEntry e = e := by
        intro e he
        apply h
        simpa [compositeEntries, hes] using he
      calc es.map fixEntry = es.map id := List.map_congr_left this
        _ = es := List.map_id es
    rw [hmap]
    exact Obj.set_eq_self _ _ _ hes
  · rfl

theorem keys_fixGitRepos (p : Obj) : Obj.keys (fixGitRepos p) = Obj.keys p := by
  unfold fixGitRepos
  split
  · rename_i m hm
    split
    · exact Obj.keys_set_of_get _ _ _ _ hm
    · rfl
  · rfl

theorem keys_fixComposite (p : Obj) : Obj.keys (fixComposite p) = Obj.keys p := by
  unfold fixComposite
  split
  · rename_i es hes
    exact Obj.keys_set_of_get _ _ _ _ hes
  · rfl

/-- One flattening block meets the flattening of the spec, when the map it
copies from has distinct keys. -/
theorem isFlattenOf_flattenStep (K : String) (o : Obj)
    (hm : ∀ m, Obj.get K o = some (.obj m) → (Obj.keys m).Nodup) :
    IsFlattenOf K (.obj o) (.obj (flattenStep K o)) := by
  cases hg : Obj.get K o with
  | none => simp [IsFlattenOf, flattenStep, hg]
  | some v =>
    cases v with
    | obj m =>
      simp only [IsFlattenOf, flattenStep, hg]
      refine ⟨_, rfl, ?_⟩
      intro k
      rw [Obj.get_del, Obj.get_set, Obj.get_copyInto k m o (hm m hg)]
      by_cases h1 : K = k
      · subst h1
        simp
      · have h1' : ¬ k = K := fun e => h1 e.symm
        by_cases h2 : "type" = k
        · subst h2
          simp [h1, h1']
        · have h2' : ¬ k = "type" := fun e => h2 e.symm
          simp [h1, h1', h2, h2']
    | _ => simp [IsFlattenOf, flattenStep, hg]

/-- The values of an entry stay well formed through one flattening block. -/
theorem flattenStep_vals_wf (K : String) (o : Obj) (h : wfObj o = true)
    (k : String) (v : JVal) (hk : Obj.get k (flattenStep K o) = some v) : v.wf = true := by
  unfold flattenStep at hk
  cases hg : Obj.get K o with
  | none =>
    simp only [hg] at hk
    exact wfObj_get o h k v hk
  | some w =>
    cases w with
    | obj m =>
      simp only [hg] at hk
      have hmwf : JVal.wf (.obj m) = true := wfObj_get o h K _ hg
      obtain ⟨hnd, hvals⟩ := wf_obj m hmwf
      rw [Obj.get_del, Obj.get_set, Obj.get_copyInto k m o hnd] at hk
      by_cases h1 : K = k
      · simp [h1] at hk
      · by_cases h2 : "type" = k
        · simp only [h1, h2, if_true, if_false, Option.some.injEq] at hk
          rw [← hk]
          rfl
        · simp only [h1, h2, if_false] at hk
          cases hkm : Obj.get k m with
          | none =>
            simp only [hkm] at hk
            exact wfObj_get o h k v hk
          | some u =>
            simp only [hkm, Option.some.injEq] at hk
            rw [← hk]
            exact wfObj_get m hvals k u hkm
    | _ =>
      simp only [hg] at hk
      exact wfObj_get o h k v hk

/-! ## Lemmas on the URL and on the rebind loop -/

/-- With at most one instance of `old`, replacing every instance and
replacing the first one are the same call. -/
theorem stringsReplace_all_eq_first (s old new : List Char)
    (h : stringsCount s old ≤ 1) :
    stringsReplace s old new (-1) = stringsReplace s old new 1 := by
  unfold stringsReplace
  by_cases heq : old = new
  · simp [heq]
  · by_cases hm : stringsCount s old = 0
    · simp [heq, hm]
    · have h1 : stringsCount s old = 1 := by omega
      simp [heq, h1]

theorem allAccepted_append (gw : Gateway) (hist xs ys : List Call) :
    allAccepted gw hist (xs ++ ys) =
      (allAccepted gw hist xs && allAccepted gw (hist ++ xs) ys) := by
  induction xs generalizing hist with
  | nil => simp [allAccepted]
  | cons c rest ih =>
    have hstep : allAccepted gw hist (c :: (rest ++ ys)) =
        (gw.accepts hist c && allAccepted gw (hist ++ [c]) (rest ++ ys)) := rfl
    have hhead : allAccepted gw hist (c :: rest) =
        (gw.accepts hist c && allAccepted gw (hist ++ [c]) rest) := rfl
    rw [List.cons_append, hstep, hhead, ih, Bool.and_assoc, List.append_assoc,
      List.singleton_append]

/-- A binding whose three calls are accepted is passed, and the loop goes on
with the next. -/
theorem rebindLoop_cons_accepted (gw : Gateway) (inst : ServiceInstance)
    (b : ServiceBinding) (rest : List ServiceBinding) (hist : List Call)
    (h : allAccepted gw hist (bindingCalls inst b) = true) :
    rebindLoop gw inst (b :: rest) hist =
      rebindLoop gw inst rest (hist ++ bindingCalls inst b) := by
  simp only [bindingCalls, bindingCall, allAccepted, Gateway.accepts, Bool.and_true,
    Bool.and_eq_true, List.append_assoc, List.singleton_append] at h
  obtain ⟨h0, h1, h2⟩ := h
  simp [rebindLoop, bindingCalls, bindingCall, h0, h1, h2]

/-- The first rejected call of a binding ends the loop with that call's
error. -/
theorem rebindLoop_cons_rejected (gw : Gateway) (inst : ServiceInstance)
    (b : ServiceBinding) (rest : List ServiceBinding) (hist : List Call) (j : Nat)
    (hj : j < 3)
    (hpre : allAccepted gw hist ((bindingCalls inst b).take j) = true)
    (hrej : gw.accepts (hist ++ (bindingCalls inst b).take j) (bindingCall inst b j) = false) :
    rebindLoop gw inst (b :: rest) hist =
      (hist ++ (bindingCalls inst b).take (j + 1), some (bindingError b j)) := by
  have hcases : j = 0 ∨ j = 1 ∨ j = 2 := by omega
  rcases hcases with rfl | rfl | rfl
  · simp only [bindingCalls, bindingCall, List.take_zero, List.append_nil,
      Gateway.accepts] at hrej
    simp [rebindLoop, bindingCalls, bindingCall, bindingError, hrej]
  · simp only [bindingCalls, bindingCall, List.take_succ_cons, List.take_zero, allAccepted,
      Gateway.accepts, Bool.and_true] at hpre hrej
    simp [rebindLoop, bindingCalls, bindingCall, bindingError, hpre, hrej]
  · simp only [bindingCalls, bindingCall, List.take_succ_cons, List.take_zero, allAccepted,
      Gateway.accepts, Bool.and_true, Bool.and_eq_true, List.append_assoc,
      List.singleton_append] at hpre hrej
    obtain ⟨h0, h1⟩ := hpre
    simp [rebindLoop, bindingCalls, bindingCall, bindingError, h0, h1, hrej]

theorem rebindLoop_all_accepted (gw : Gateway) (inst : ServiceInstance)
    (bindings : List ServiceBinding) (hist : List Call)
    (h : allAccepted gw hist (planCalls inst bindings) = true) :
    rebindLoop gw inst bindings hist = (hist ++ planCalls inst bindings, none) := by
  induction bindings generalizing hist with
  | nil => simp [rebindLoop, planCalls]
  | cons b rest ih =>
    simp only [planCalls, allAccepted_append, Bool.and_eq_true] at h
    rw [rebindLoop_cons_accepted gw inst b rest hist h.1, ih _ h.2]
    simp [planCalls, List.append_assoc]

theorem rebindLoop_first_rejected (gw : Gateway) (inst : ServiceInstance)
    (bindings : List ServiceBinding) (hist : List Call) (k j : Nat) (b : ServiceBinding)
    (hb : bindings[k]? = some b) (hj : j < 3)
    (hpre : allAccepted gw hist
      (planCalls inst (bindings.take k) ++ (bindingCalls inst b).take j) = true)
    (hrej : gw.accepts
      (hist ++ (planCalls inst (bindings.take k) ++ (bindingCalls inst b).take j))
      (bindingCall inst b j) = false) :
    rebindLoop gw inst bindings hist =
      (hist ++ (planCalls inst (bindings.take k) ++ (bindingCalls inst b).take (j + 1)),
        some (bindingError b j)) := by
  induction k generalizing bindings hist with
  | zero =>
    cases bindings with
    | nil => simp at hb
    | cons b0 rest =>
      simp only [List.getElem?_cons_zero, Option.some.injEq] at hb
      subst hb
      simp only [List.take_zero, planCalls, List.nil_append] at hpre hrej ⊢
      exact rebindLoop_cons_rejected gw inst b0 rest hist j hj hpre hrej
  | succ k ih =>
    cases bindings with
    | nil => simp at hb
    | cons b0 rest =>
      simp only [List.getElem?_cons_succ] at hb
      simp only [List.take_succ_cons, planCalls, List.append_assoc] at hpre hrej ⊢
      rw [allAccepted_append, Bool.and_eq_true] at hpre
      rw [rebindLoop_cons_accepted gw inst b0 rest hist hpre.1]
      have hrej' : gw.accepts
          ((hist ++ bindingCalls inst b0) ++
            (planCalls inst (rest.take k) ++ (bindingCalls inst b).take j))
          (bindingCall inst b j) = false := by
        rw [List.append_assoc]
        exact hrej
      rw [ih rest (hist ++ bindingCalls inst b0) hb hpre.2 hrej', List.append_assoc]

/-- The polling loop, run from `tries = 0`, always ends on an error: the
failed error at the first poll that observes `failed`, the not-completed error
after the third poll otherwise; it issues one to three polls and nothing
else. -/
theorem renameWait_errors (gw : Gateway) (guid : String) (hist : List Call) :
    ∃ e n, 1 ≤ n ∧ n ≤ 3 ∧
      renameWait gw guid 3 0 hist =
        (hist ++ List.replicate n (Call.getServiceInstanceByGuid guid), some e) ∧
      (e = RenameError.operationFailed ∨ (e = RenameError.notCompleted ∧ n = 3)) := by
  have hsw : ∀ (r : Option ServiceInstance),
      (match r with
        | some si => renameSwitch si.lastOperationState
        | none => none) = none ∨
      (match r with
        | some si => renameSwitch si.lastOperationState
        | none => none) = some RenameError.operationFailed := by
    intro r
    cases r with
    | none => exact Or.inl rfl
    | some si =>
      by_cases h1 : si.lastOperationState = "succeeded"
      · left
        simp [renameSwitch, h1]
      · by_cases h2 : si.lastOperationState = "failed"
        · right
          simp [renameSwitch, h2]
        · left
          simp [renameSwitch, h1, h2]
  rcases hsw (gw.getServiceInstanceByGuid hist guid) with h0 | h0
  · rcases hsw (gw.getServiceInstanceByGuid
        (hist ++ [Call.getServiceInstanceByGuid guid]) guid) with h1 | h1
    · rcases hsw (gw.getServiceInstanceByGuid
          (hist ++ [Call.getServiceInstanceByGuid guid,
            Call.getServiceInstanceByGuid guid]) guid) with h2 | h2
      · refine ⟨.notCompleted, 3, by omega, by omega, ?_, Or.inr ⟨rfl, rfl⟩⟩
        simp [renameWait, h0, h1, h2, List.replicate]
      · refine ⟨.operationFailed, 3, by omega, by omega, ?_, Or.inl rfl⟩
        simp [renameWait, h0, h1, h2, List.replicate]
    · refine ⟨.operationFailed, 2, by omega, by omega, ?_, Or.inl rfl⟩
      simp [renameWait, h0, h1, List.replicate]
  · refine ⟨.operationFailed, 1, by omega, by omega, ?_, Or.inl rfl⟩
    simp [renameWait, h0, List.replicate]

/-! ## The classifier after the transformer -/

/-- C2: for every payload, `validateConfigServerParams` run on the payload left
by `fixConfigServerParams` reports `usesGitRepos = false`. -/
theorem C2_fix_then_validate_no_git_repos (p : Obj) :
    (validateConfigServerParams (fixConfigServerParams p)).usesGitRepos = false := by
  simp only [validateConfigServerParams]
  rw [get_git_fix]
  cases hg : Obj.get "git" p with
  | none => rfl
  | some v =>
    cases v with
    | obj gitm => simp [Obj.has, Obj.get_del]
    | _ => rfl

/-- C5: `validateConfigServerParams` reports `usesGitRepos` exactly when `git`
holds a map that has key `repos`, `usesEncryptKey` exactly when `encrypt` holds
a map that has key `key`, and `usesComposite` exactly when `composite` holds an
array one of whose entries is a map that has key `git` or key `vault`; the
function is total, so every other shape gives `false` and no error. -/
theorem C5_validate_characterised (p : Obj) :
    ((validateConfigServerParams p).usesGitRepos = true ↔
        ∃ gitm, Obj.get "git" p = some (.obj gitm) ∧ Obj.has "repos" gitm = true) ∧
    ((validateConfigServerParams p).usesEncryptKey = true ↔
        ∃ encryptm, Obj.get "encrypt" p = some (.obj encryptm) ∧ Obj.has "key" encryptm = true) ∧
    ((validateConfigServerParams p).usesComposite = true ↔
        ∃ composites, Obj.get "composite" p = some (.arr composites) ∧
          ∃ entry ∈ composites, ∃ o, entry = .obj o ∧
            (Obj.has "git" o = true ∨ Obj.has "vault" o = true)) := by
  refine ⟨?_, ?_, ?_⟩
  · simp only [validateConfigServerParams]
    cases hg : Obj.get "git" p with
    | none => simp
    | some v => cases v <;> simp
  · simp only [validateConfigServerParams]
    cases hg : Obj.get "encrypt" p with
    | none => simp
    | some v => cases v <;> simp
  · simp only [validateConfigServerParams]
    cases hg : Obj.get "composite" p with
    | none => simp
    | some v =>
      cases v with
      | arr es =>
        simp only [foldl_compositeStep, Bool.false_or, List.any_eq_true, Option.some.injEq,
          JVal.arr.injEq, exists_eq_left']
        constructor
        · rintro ⟨e, he, hf⟩
          cases e with
          | obj o =>
            refine ⟨_, he, o, rfl, ?_⟩
            simpa [compositeStep] using hf
          | _ => simp [compositeStep] at hf
        · rintro ⟨e, he, o, rfl, hf⟩
          exact ⟨_, he, by simpa [compositeStep] using hf⟩
      | _ => simp

/-- C1, the claim as stated fails: on `{"composite": [{"git": "https://..."}]}`
the transformer skips the entry, whose `git` is no map, and the classifier,
which looks at the presence of the key only, still reports
`usesComposite = true`. -/
theorem C1_counterexample_string_git :
    (validateConfigServerParams (fixConfigServerParams payloadGitString)).usesComposite
      = true := by
  decide

/-- C1, as amended: for every payload in which each entry of `composite` that
is a map holds under `git` and under `vault`, when the key is present, a map,
the one under `git` without key `vault` and the one under `vault` without key
`git`, `validateConfigServerParams` run on the payload left by
`fixConfigServerParams` reports `usesComposite = false`. -/
theorem C1_fix_then_validate_no_old_composite (p : Obj)
    (h : ∀ e ∈ compositeEntries p, entryObjValued e = true ∧ entryNoCollision e = true) :
    (validateConfigServerParams (fixConfigServerParams p)).usesComposite = false := by
  simp only [validateConfigServerParams]
  rw [get_composite_fix]
  cases hc : Obj.get "composite" p with
  | none => rfl
  | some v =>
    cases v with
    | arr es =>
      simp only [foldl_compositeStep, Bool.false_or]
      rw [List.any_eq_false]
      intro x hx
      obtain ⟨e, he, rfl⟩ := List.mem_map.mp hx
      have hmem : e ∈ compositeEntries p := by simpa [compositeEntries, hc] using he
      obtain ⟨hobj, hcol⟩ := h e hmem
      cases e with
      | obj o =>
        obtain ⟨hg, hv⟩ := fixEntry_has o hcol hobj
        rw [fixEntry_obj]
        simp [compositeStep, hg, hv]
      | _ => simp [fixEntry, compositeStep]
    | _ => rfl

/-- Witness of C1 as amended, on the two-entry payload of the repository's
test. -/
theorem C1_fix_then_validate_witness :
    (∀ e ∈ compositeEntries payloadTwoComposites,
        entryObjValued e = true ∧ entryNoCollision e = true) ∧
    (validateConfigServerParams (fixConfigServerParams payloadTwoComposites)).usesComposite
      = false :=
  ⟨by decide, C1_fix_then_validate_no_old_composite payloadTwoComposites (by decide)⟩

/-! ## Idempotence and the compatible payloads -/

/-- C3, the claim as stated fails: on `{"composite": [{"vault": {"git": {"uri":
"u"}}}]}` the first pass lifts the inner `git` map into the entry, and the
second pass flattens it, so the two results differ (the first has key `git` in
its entry, the second has not). -/
theorem C3_counterexample_not_idempotent :
    fixConfigServerParams (fixConfigServerParams payloadVaultWithGit)
      ≠ fixConfigServerParams payloadVaultWithGit := by
  intro h
  have hflag := congrArg (fun r => (validateConfigServerParams r).usesComposite) h
  exact absurd hflag (by decide)

/-- C3, as amended: for every payload in which no entry of `composite` holds
under `git` a map with key `vault` or under `vault` a map with key `git`,
applying `fixConfigServerParams` twice leaves the same payload as applying it
once. -/
theorem C3_fix_idempotent (p : Obj)
    (h : ∀ e ∈ compositeEntries p, entryNoCollision e = true) :
    fixConfigServerParams (fixConfigServerParams p) = fixConfigServerParams p := by
  have hgit : fixGitRepos (fixConfigServerParams p) = fixConfigServerParams p := by
    apply fixGitRepos_noop
    intro m hm
    rw [get_git_fix] at hm
    cases hg : Obj.get "git" p with
    | none => simp [hg] at hm
    | some v =>
      cases v with
      | obj gitm =>
        simp only [hg, Option.some.injEq, JVal.obj.injEq] at hm
        subst hm
        simp [Obj.has, Obj.get_del]
      | _ => simp [hg] at hm
  have hcomp : fixComposite (fixConfigServerParams p) = fixConfigServerParams p := by
    have hget := get_composite_fix p
    cases hc : Obj.get "composite" p with
    | none =>
      apply fixComposite_noop
      simp [compositeEntries, hget, hc]
    | some v =>
      cases v with
      | arr es =>
        rw [hc] at hget
        apply fixComposite_noop
        intro x hx
        simp only [compositeEntries, hget] at hx
        obtain ⟨e, he, rfl⟩ := List.mem_map.mp hx
        apply fixEntry_idem
        apply h
        simpa [compositeEntries, hc] using he
      | _ =>
        apply fixComposite_noop
        simp [compositeEntries, hget, hc]
  calc fixConfigServerParams (fixConfigServerParams p)
      = fixComposite (fixGitRepos (fixConfigServerParams p)) := rfl
    _ = fixComposite (fixConfigServerParams p) := by rw [hgit]
    _ = fixConfigServerParams p := hcomp

/-- Witness of C3 as amended, on the two-entry payload of the repository's
test. -/
theorem C3_fix_idempotent_witness :
    (∀ e ∈ compositeEntries payloadTwoComposites, entryNoCollision e = true) ∧
    fixConfigServerParams (fixConfigServerParams payloadTwoComposites)
      = fixConfigServerParams payloadTwoComposites :=
  ⟨by decide, C3_fix_idempotent payloadTwoComposites (by decide)⟩

/-- C8: `fixConfigServerParams` leaves unchanged every payload for which
`validateConfigServerParams` reports `usesGitRepos = false` and
`usesComposite = false`. -/
theorem C8_fix_noop_on_compatible (p : Obj)
    (hg : (validateConfigServerParams p).usesGitRepos = false)
    (hc : (validateConfigServerParams p).usesComposite = false) :
    fixConfigServerParams p = p := by
  have hgit : fixGitRepos p = p := by
    apply fixGitRepos_noop
    intro m hm
    simpa [validateConfigServerParams, hm] using hg
  have hcomp : fixComposite p = p := by
    apply fixComposite_noop
    intro e he
    apply fixEntry_noop
    cases hcp : Obj.get "composite" p with
    | none => simp [compositeEntries, hcp] at he
    | some v =>
      cases v with
      | arr es =>
        simp only [compositeEntries, hcp] at he
        simp only [validateConfigServerParams, hcp, foldl_compositeStep, Bool.false_or] at hc
        exact (List.any_eq_false.mp hc) e he |> fun hx => by simpa using hx
      | _ => simp [compositeEntries, hcp] at he
  unfold fixConfigServerParams
  rw [hgit, hcomp]

/-- Witness of C8, on the compatible payload of the repository's test. -/
theorem C8_fix_noop_witness :
    (validateConfigServerParams payloadCompatible).usesGitRepos = false ∧
    (validateConfigServerParams payloadCompatible).usesComposite = false ∧
    fixConfigServerParams payloadCompatible = payloadCompatible :=
  ⟨by decide, by decide, C8_fix_noop_on_compatible payloadCompatible (by decide) (by decide)⟩

/-! ## What the transformer changes -/

/-- C7: `fixConfigServerParams` keeps the top-level keys, keeps every
top-level value other than those of `git` and `composite`, keeps `git` when it
holds no map, and when `git` holds a map leaves under `git` that map with
`repos` erased, every other key of it reading as before. -/
theorem C7_fix_frame (p : Obj) :
    Obj.keys (fixConfigServerParams p) = Obj.keys p ∧
    (∀ k, k ≠ "git" → k ≠ "composite" →
      Obj.get k (fixConfigServerParams p) = Obj.get k p) ∧
    (holdsObj (Obj.get "git" p) = false →
      Obj.get "git" (fixConfigServerParams p) = Obj.get "git" p) ∧
    (∀ gitm, Obj.get "git" p = some (.obj gitm) →
      Obj.get "git" (fixConfigServerParams p) = some (.obj (Obj.del "repos" gitm)) ∧
      Obj.get "repos" (Obj.del "repos" gitm) = none ∧
      ∀ k, k ≠ "repos" → Obj.get k (Obj.del "repos" gitm) = Obj.get k gitm) := by
  refine ⟨?_, ?_, ?_, ?_⟩
  · unfold fixConfigServerParams
    rw [keys_fixComposite, keys_fixGitRepos]
  · intro k hk1 hk2
    unfold fixConfigServerParams
    rw [get_fixComposite_ne _ _ (fun e => hk2 e.symm), get_fixGitRepos_ne _ _ (fun e => hk1 e.symm)]
  · intro hno
    rw [get_git_fix]
    split
    · rename_i m hm
      rw [hm] at hno
      simp [holdsObj] at hno
    · rfl
  · intro gitm hg
    refine ⟨?_, ?_, ?_⟩
    · rw [get_git_fix, hg]
    · simp [Obj.get_del]
    · intro k hk
      rw [Obj.get_del, if_neg (fun e => hk e.symm)]

/-- C6: for every well-formed payload whose `composite` holds an array,
`fixConfigServerParams` leaves under `composite` the array of the images of
its entries under the loop body, in the same order, and the image of an entry
`e` is `flattenVault (flattenGit e)` for the flattening of the spec; an entry
that is no map, or a map holding no map under `git` and none under `vault`, is
its own image. -/
theorem C6_fix_composite_entrywise (p : Obj) (es : List JVal)
    (hwf : JVal.wf (.obj p) = true)
    (hc : Obj.get "composite" p = some (.arr es)) :
    Obj.get "composite" (fixConfigServerParams p) = some (.arr (es.map fixEntry)) ∧
    (es.map fixEntry).length = es.length ∧
    (∀ e ∈ es, ∃ mid, IsFlattenOf "git" e mid ∧ IsFlattenOf "vault" mid (fixEntry e)) ∧
    (∀ e ∈ es, (∀ o, e = .obj o →
        holdsObj (Obj.get "git" o) = false ∧ holdsObj (Obj.get "vault" o) = false) →
      fixEntry e = e) := by
  refine ⟨?_, List.length_map _ _, ?_, ?_⟩
  · rw [get_composite_fix, hc]
  · intro e he
    have heswf : wfList es = true := by
      have := wfObj_get p (wf_obj p hwf).2 "composite" _ hc
      simpa [JVal.wf] using this
    have hewf : e.wf = true := wfList_mem es heswf e he
    cases e with
    | obj o =>
      obtain ⟨_, hvals⟩ := wf_obj o hewf
      refine ⟨.obj (flattenStep "git" o), ?_, ?_⟩
      · apply isFlattenOf_flattenStep
        intro m hm
        exact (wf_obj m (wfObj_get o hvals "git" _ hm)).1
      · rw [fixEntry_obj]
        apply isFlattenOf_flattenStep
        intro m hm
        exact (wf_obj m (flattenStep_vals_wf "git" o hvals "vault" _ hm)).1
    | null => exact ⟨.null, rfl, rfl⟩
    | bool b => exact ⟨.bool b, rfl, rfl⟩
    | num n => exact ⟨.num n, rfl, rfl⟩
    | str t => exact ⟨.str t, rfl, rfl⟩
    | arr xs => exact ⟨.arr xs, rfl, rfl⟩
  · intro e _ hflat
    cases e with
    | obj o =>
      obtain ⟨h1, h2⟩ := hflat o rfl
      rw [fixEntry_obj, flattenStep_noop "git" o h1, flattenStep_noop "vault" o h2]
    | _ => rfl

/-- Witness of C6, on the two-entry payload of the repository's test. -/
theorem C6_fix_composite_witness :
    JVal.wf (.obj payloadTwoComposites) = true ∧
    Obj.get "composite" (fixConfigServerParams payloadTwoComposites)
      = some (.arr [.obj [("foo", .str "bar"), ("type", .str "git")],
                    .obj [("baz", .num 42), ("type", .str "vault")]]) :=
  ⟨by decide, (C6_fix_composite_entrywise payloadTwoComposites _ (by decide) rfl).1⟩

/-! ## The dashboard URL -/

/-- C9, the claim as stated fails: `commandLineURL` replaces every occurrence,
not the first one.  On `https://dashboard.example.com/dashboard/p-config-server/GUID`
it returns `https://cli.example.com/cli/instances/GUID/parameters`, and the
rewriting of the first occurrences gives
`https://cli.example.com/dashboard/instances/GUID/parameters`. -/
theorem C9_counterexample_two_occurrences :
    commandLineURL twiceDashboardURL
        = "https://cli.example.com/cli/instances/GUID/parameters" ∧
    firstOccurrenceURL twiceDashboardURL
        = "https://cli.example.com/dashboard/instances/GUID/parameters" ∧
    commandLineURL twiceDashboardURL ≠ firstOccurrenceURL twiceDashboardURL := by
  set_option maxRecDepth 100000 in decide

/-- C9, as amended: for every dashboard URL in which `dashboard` occurs at
most once and in which, once it is replaced, the label `p-config-server`
occurs at most once, `commandLineURL` returns the URL with the first
occurrence of `dashboard` replaced by `cli`, then the first occurrence of the
label replaced by `instances`, followed by `/parameters`. -/
theorem C9_commandLineURL_single_occurrence (u : String)
    (h1 : stringsCount u.data "dashboard".data ≤ 1)
    (h2 : stringsCount (stringsReplace u.data "dashboard".data "cli".data 1)
      ConfigServer2Label.data ≤ 1) :
    commandLineURL u = firstOccurrenceURL u := by
  unfold commandLineURL firstOccurrenceURL
  rw [stringsReplace_all_eq_first _ _ _ h1, stringsReplace_all_eq_first _ _ _ h2]

/-- Witness of C9 as amended: the URL of `TestBrokerURL` has one occurrence of
each and maps to the URL the test expects. -/
theorem C9_commandLineURL_witness :
    stringsCount testDashboardURL.data "dashboard".data ≤ 1 ∧
    stringsCount (stringsReplace testDashboardURL.data "dashboard".data "cli".data 1)
      ConfigServer2Label.data ≤ 1 ∧
    commandLineURL testDashboardURL
      = "https://spring-cloud-broker.apps.pivotal.io/cli/instances/GUID/parameters" :=
  ⟨by set_option maxRecDepth 100000 in decide,
   by set_option maxRecDepth 100000 in decide,
   (C9_commandLineURL_single_occurrence testDashboardURL
      (by set_option maxRecDepth 100000 in decide)
      (by set_option maxRecDepth 100000 in decide)).trans
     (by set_option maxRecDepth 100000 in decide)⟩

/-! ## The migration -/

/-- C4, the code at the failing input: the gateway accepts the rename and
every poll observes `succeeded`, and `renameServiceInstance` with `wait = true`
still returns the not-completed error after its third poll, so
`migrateService` returns an error without issuing `CreateServiceInstance`. -/
theorem C4_rename_errors_when_succeeded :
    renameServiceInstance gatewaySucceeded [] "old-guid" "config-old" true =
      ([Call.updateServiceInstance "old-guid" "\x7b \"name\": \"config-old\"\x7d" true,
        Call.getServiceInstanceByGuid "old-guid",
        Call.getServiceInstanceByGuid "old-guid",
        Call.getServiceInstanceByGuid "old-guid"],
       some RenameError.notCompleted) ∧
    migrateService gatewaySucceeded [] exampleService "space-guid" payloadCompatible
        exampleBindings =
      ([Call.updateServiceInstance "old-guid" "\x7b \"name\": \"config-old\"\x7d" true,
        Call.getServiceInstanceByGuid "old-guid",
        Call.getServiceInstanceByGuid "old-guid",
        Call.getServiceInstanceByGuid "old-guid"],
       Except.error (MigrateError.rename RenameError.notCompleted)) :=
  ⟨rfl, rfl⟩

/-- C10: in the rebind loop the calls are those of the bindings in list order,
each binding as create, delete, restage.  When the gateway accepts them all the
loop issues them all and returns no error; when the first rejected call is the
`j`-th call of binding `k`, the loop returns that call's error, having issued
the three calls of every binding before `k` and the calls of binding `k` up to
the rejected one, and nothing after. -/
theorem C10_rebind_stops_at_first_failure (gw : Gateway) (newInstance : ServiceInstance)
    (bindings : List ServiceBinding) (hist : List Call) :
    (allAccepted gw hist (planCalls newInstance bindings) = true →
      rebindLoop gw newInstance bindings hist =
        (hist ++ planCalls newInstance bindings, none)) ∧
    (∀ (k j : Nat) (b : ServiceBinding), bindings[k]? = some b → j < 3 →
      allAccepted gw hist
        (planCalls newInstance (bindings.take k) ++ (bindingCalls newInstance b).take j)
          = true →
      gw.accepts
        (hist ++ (planCalls newInstance (bindings.take k) ++
          (bindingCalls newInstance b).take j))
        (bindingCall newInstance b j) = false →
      rebindLoop gw newInstance bindings hist =
        (hist ++ (planCalls newInstance (bindings.take k) ++
            (bindingCalls newInstance b).take (j + 1)),
          some (bindingError b j))) :=
  ⟨rebindLoop_all_accepted gw newInstance bindings hist,
   fun k j b hb hj hpre hrej =>
     rebindLoop_first_rejected gw newInstance bindings hist k j b hb hj hpre hrej⟩

/-- Witness of C10: of three bindings the deletion of the second is rejected;
the loop has issued the three calls of the first binding, the creation and the
deletion for the second, and returns the error of the deletion. -/
theorem C10_rebind_witness :
    rebindLoop gatewayDeleteFails exampleInstance exampleBindings [] =
      ([Call.createServiceBinding "app1" "new-guid", Call.deleteServiceBinding "b1",
        Call.restageApp "app1", Call.createServiceBinding "app2" "new-guid",
        Call.deleteServiceBinding "b2"],
       some (MigrateError.unbind "b2")) :=
  (C10_rebind_stops_at_first_failure gatewayDeleteFails exampleInstance exampleBindings []).2
    1 1 { guid := "b2", appGuid := "app2" } rfl (by decide) (by decide) (by decide)

/-- C11: for every guid, name and gateway behaviour `renameServiceInstance`
with `wait = true` returns an error: the update error when the rename request
is rejected, otherwise the failed error at a poll observing `failed` or the
not-completed error after the third poll.  So `migrateService` returns the
rename error on every input, and the calls it issues are the update and at
most three polls: `CreateServiceInstance` is never issued. -/
theorem C11_rename_wait_always_errors (gw : Gateway) (hist : List Call)
    (guid name : String) (service : ServiceSummary) (spaceGUID : String) (params : Obj)
    (bindings : List ServiceBinding) :
    (∃ e, (renameServiceInstance gw hist guid name true).2 = some e) ∧
    (gw.updateServiceInstance hist guid ("\x7b \"name\": \"" ++ name ++ "\"\x7d") true = true →
      (renameServiceInstance gw hist guid name true).2 = some RenameError.operationFailed ∨
      (renameServiceInstance gw hist guid name true).2 = some RenameError.notCompleted) ∧
    (∃ e n, n ≤ 3 ∧
      migrateService gw hist service spaceGUID params bindings =
        (hist ++ Call.updateServiceInstance service.guid
            ("\x7b \"name\": \"" ++ (service.name ++ "-old") ++ "\"\x7d") true ::
          List.replicate n (Call.getServiceInstanceByGuid service.guid),
         Except.error (MigrateError.rename e))) := by
  have hren : ∀ (g nm : String),
      (gw.updateServiceInstance hist g ("\x7b \"name\": \"" ++ nm ++ "\"\x7d") true = false ∧
        renameServiceInstance gw hist g nm true =
          (hist ++ [Call.updateServiceInstance g ("\x7b \"name\": \"" ++ nm ++ "\"\x7d") true],
            some RenameError.updateFailed)) ∨
      (gw.updateServiceInstance hist g ("\x7b \"name\": \"" ++ nm ++ "\"\x7d") true = true ∧
        ∃ e n, 1 ≤ n ∧ n ≤ 3 ∧
          renameServiceInstance gw hist g nm true =
            (hist ++ [Call.updateServiceInstance g ("\x7b \"name\": \"" ++ nm ++ "\"\x7d") true]
              ++ List.replicate n (Call.getServiceInstanceByGuid g), some e) ∧
          (e = RenameError.operationFailed ∨ e = RenameError.notCompleted)) := by
    intro g nm
    by_cases hu : gw.updateServiceInstance hist g ("\x7b \"name\": \"" ++ nm ++ "\"\x7d") true = true
    · right
      refine ⟨hu, ?_⟩
      obtain ⟨e, n, h1, h3, heq, he⟩ := renameWait_errors gw g
        (hist ++ [Call.updateServiceInstance g ("\x7b \"name\": \"" ++ nm ++ "\"\x7d") true])
      refine ⟨e, n, h1, h3, ?_, he.imp id (fun h => h.1)⟩
      simp only [renameServiceInstance, hu]
      simpa using heq
    · left
      have hu' : gw.updateServiceInstance hist g ("\x7b \"name\": \"" ++ nm ++ "\"\x7d") true
          = false := by simpa using hu
      exact ⟨hu', by simp [renameServiceInstance, hu']⟩
  refine ⟨?_, ?_, ?_⟩
  · rcases hren guid name with ⟨_, h⟩ | ⟨_, e, n, _, _, h, _⟩
    · exact ⟨_, by rw [h]⟩
    · exact ⟨e, by rw [h]⟩
  · intro hu
    rcases hren guid name with ⟨hf, _⟩ | ⟨_, e, n, _, _, h, he⟩
    · rw [hu] at hf
      exact absurd hf (by decide)
    · rcases he with rfl | rfl
      · exact Or.inl (by rw [h])
      · exact Or.inr (by rw [h])
  · rcases hren service.guid (service.name ++ "-old") with ⟨_, h⟩ | ⟨_, e, n, _, h3, h, _⟩
    · refine ⟨.updateFailed, 0, by omega, ?_⟩
      simp only [migrateService, h]
      simp
    · refine ⟨e, n, h3, ?_⟩
      simp only [migrateService, h]
      simp

end ScsMigrate
